import Mathlib

/-!
Verification development for the go-pack tool (src/gopack.go).

The repository contains two variants of the program in one source file:
the first variant (run, updateListFile, writeFileAtomic) maintains the
per-module version list at module/@v/list; the second variant is identical
up to the archive step but does not touch the list file.

This file shallowly embeds:
  * the semantic-version parser and comparator of golang.org/x/mod/semver
    (the library the program uses for IsValid and Compare), over List Char;
  * the list-file update algorithm updateListFile as a relation: the Go
    code sorts with sort.Slice, whose contract fixes only that the output
    is a permutation of the input that is sorted with respect to the
    comparison closure, so the model quantifies over every such output;
  * writeFileAtomic as a state-transition function with an injected
    failure point;
  * the escaping routine escapeString of golang.org/x/mod/module;
  * both run variants as straight-line functions over an oracle that
    supplies the results of external effects, returning the ordered trace
    of filesystem operations together with the final outcome.
-/

namespace Semver

/-- Character class d in 48..57, the Go check c0 le c and c le c9 done on
bytes in golang.org/x/mod/semver. -/
def isDigit (c : Char) : Bool := 48 ≤ c.toNat && c.toNat ≤ 57

/-- Translation of isIdentChar from golang.org/x/mod/semver: ASCII letters,
digits and the hyphen. -/
def isIdentChar (c : Char) : Bool :=
  (65 ≤ c.toNat && c.toNat ≤ 90) || (97 ≤ c.toNat && c.toNat ≤ 122) ||
  (48 ≤ c.toNat && c.toNat ≤ 57) || c == '-'

/-- Translation of isNum from golang.org/x/mod/semver: every character is a
digit (vacuously true on the empty string, as in the Go original). -/
def isNum (v : List Char) : Bool := v.all isDigit

/-- Translation of isBadNum from golang.org/x/mod/semver: all digits, more
than one character, leading zero. -/
def isBadNum (v : List Char) : Bool :=
  v.all isDigit && decide (1 < v.length) && v.head? == some '0'

/-- Go string comparison x less than y, byte-lexicographic, as used by
compareInt and comparePrerelease of golang.org/x/mod/semver. -/
def strLt : List Char → List Char → Bool
  | _, [] => false
  | [], _ :: _ => true
  | a :: as, b :: bs =>
    if a.toNat < b.toNat then true
    else if b.toNat < a.toNat then false
    else strLt as bs

/-- Splits a character list into the groups between dots. Mirrors the
group boundaries tracked by the variable start in parsePrerelease and
parseBuild of golang.org/x/mod/semver: a string with n dots yields n+1
groups, empty groups included. -/
def splitDots : List Char → List (List Char)
  | [] => [[]]
  | c :: cs =>
    if c == '.' then [] :: splitDots cs
    else
      match splitDots cs with
      | g :: gs => (c :: g) :: gs
      | [] => [[c]]

/-- Translation of parseInt from golang.org/x/mod/semver: a nonempty run of
digits with no leading zero unless it is exactly 0; returns the digits and
the rest of the input. -/
def parseInt (v : List Char) : Option (List Char × List Char) :=
  match v with
  | [] => none
  | c :: _ =>
    if isDigit c then
      let t := v.takeWhile isDigit
      let rest := v.dropWhile isDigit
      if c == '0' && t.length != 1 then none else some (t, rest)
    else none

/-- Translation of parsePrerelease from golang.org/x/mod/semver: after the
hyphen, dot-separated identifiers up to the plus sign or the end; every
group must be nonempty, consist of identifier characters, and numeric
groups must not have leading zeros. The Go loop checks characters and
group boundaries as it scans; this is the same condition stated over the
scanned region as a whole. Returns the consumed text, hyphen included,
and the rest. -/
def parsePrerelease (v : List Char) : Option (List Char × List Char) :=
  match v with
  | '-' :: w =>
    let body := w.takeWhile (fun c => c != '+')
    let rest := w.dropWhile (fun c => c != '+')
    if body.all (fun c => isIdentChar c || c == '.') &&
       (splitDots body).all (fun g => !g.isEmpty && !isBadNum g)
    then some ('-' :: body, rest) else none
  | _ => none

/-- Translation of parseBuild from golang.org/x/mod/semver: after the plus
sign, dot-separated nonempty identifier groups running to the end of the
input (leading zeros are allowed in build metadata). -/
def parseBuild (v : List Char) : Option (List Char × List Char) :=
  match v with
  | '+' :: w =>
    if w.all (fun c => isIdentChar c || c == '.') &&
       (splitDots w).all (fun g => !g.isEmpty)
    then some ('+' :: w, []) else none
  | _ => none

/-- The fields of the parsed struct of golang.org/x/mod/semver that are
relevant to IsValid and Compare (the short field only feeds Canonical and
MajorMinor, which the program does not call). prerelease keeps its leading
hyphen and build its leading plus, exactly as in the Go struct. -/
structure Parsed where
  major : List Char
  minor : List Char
  patch : List Char
  prerelease : List Char
  build : List Char
deriving DecidableEq

/-- The tail of parse from golang.org/x/mod/semver after the patch number:
an optional prerelease part, an optional build part, and then the input
must be exhausted. -/
def parseTail (r : List Char) : Option (List Char × List Char) :=
  let step1 : Option (List Char × List Char) :=
    match r with
    | '-' :: _ => parsePrerelease r
    | _ => some ([], r)
  match step1 with
  | none => none
  | some (pre, r2) =>
    match r2 with
    | '+' :: _ =>
      match parseBuild r2 with
      | none => none
      | some (build, r3) => if r3 = [] then some (pre, build) else none
    | _ => if r2 = [] then some (pre, []) else none

/-- Translation of parse from golang.org/x/mod/semver: a leading v, then
major, optionally .minor, optionally .patch (missing parts default to 0,
so v1 and v1.2 are accepted), then the optional prerelease and build
parts. -/
def parse (v : List Char) : Option Parsed :=
  match v with
  | 'v' :: w =>
    match parseInt w with
    | none => none
    | some (major, r1) =>
      if r1 = [] then some ⟨major, ['0'], ['0'], [], []⟩
      else
        match r1 with
        | '.' :: w1 =>
          match parseInt w1 with
          | none => none
          | some (minor, r2) =>
            if r2 = [] then some ⟨major, minor, ['0'], [], []⟩
            else
              match r2 with
              | '.' :: w2 =>
                match parseInt w2 with
                | none => none
                | some (patch, r3) =>
                  match parseTail r3 with
                  | none => none
                  | some (pre, build) => some ⟨major, minor, patch, pre, build⟩
              | _ => none
        | _ => none
  | _ => none

/-- Translation of IsValid from golang.org/x/mod/semver. -/
def isValid (s : String) : Bool := (parse s.data).isSome

/-- Translation of compareInt from golang.org/x/mod/semver: numeric strings
without leading zeros compare by length first, then lexicographically. -/
def compareInt (x y : List Char) : Int :=
  if x = y then 0
  else if x.length < y.length then -1
  else if y.length < x.length then 1
  else if strLt x y then -1 else 1

/-- The identifier comparison inside the loop of comparePrerelease of
golang.org/x/mod/semver, applied when the two identifiers differ: numeric
identifiers sort below alphanumeric ones, numeric against numeric by
length then lexicographically, otherwise lexicographically. -/
def cmpIdent (dx dy : List Char) : Int :=
  if isNum dx != isNum dy then (if isNum dx then -1 else 1)
  else if isNum dx && decide (dx.length < dy.length) then -1
  else if isNum dx && decide (dy.length < dx.length) then 1
  else if strLt dx dy then -1 else 1

/-- The loop of comparePrerelease from golang.org/x/mod/semver: drop the
separator character at the head of each side, split off the identifiers up
to the next dot (nextIdent), recurse while they agree; when one side runs
out, the shorter prerelease sorts first. -/
def comparePreLoop (x y : List Char) : Int :=
  match x, y with
  | [], _ => -1
  | _ :: _, [] => 1
  | _ :: xs, _ :: ys =>
    let dx := xs.takeWhile (fun c => c != '.')
    let x1 := xs.dropWhile (fun c => c != '.')
    let dy := ys.takeWhile (fun c => c != '.')
    let y1 := ys.dropWhile (fun c => c != '.')
    if dx = dy then comparePreLoop x1 y1 else cmpIdent dx dy
termination_by x.length
decreasing_by
  simp_wf
  exact Nat.lt_succ_of_le ((List.dropWhile_sublist _).length_le)

/-- Translation of comparePrerelease from golang.org/x/mod/semver: an
absent prerelease sorts above any present one; otherwise the loop
decides. -/
def comparePrerelease (x y : List Char) : Int :=
  if x = y then 0
  else if x = [] then 1
  else if y = [] then -1
  else comparePreLoop x y

/-- Translation of Compare from golang.org/x/mod/semver: invalid versions
sort before valid ones and compare equal to each other; valid versions
compare by major, minor, patch, then prerelease; build metadata is
ignored. -/
def compare (v w : String) : Int :=
  match parse v.data, parse w.data with
  | none, none => 0
  | none, some _ => -1
  | some _, none => 1
  | some pv, some pw =>
    let c1 := compareInt pv.major pw.major
    if c1 ≠ 0 then c1
    else
      let c2 := compareInt pv.minor pw.minor
      if c2 ≠ 0 then c2
      else
        let c3 := compareInt pv.patch pw.patch
        if c3 ≠ 0 then c3
        else comparePrerelease pv.prerelease pw.prerelease

/-- Characters with equal code points are equal. -/
theorem char_toNat_inj {a b : Char} (h : a.toNat = b.toNat) : a = b := by
  have h2 := congrArg Char.ofNat h
  rwa [Char.ofNat_toNat, Char.ofNat_toNat] at h2

/-- Byte-lexicographic less-than is asymmetric. -/
theorem strLt_asymm : ∀ x y : List Char, strLt x y = true → strLt y x = false
  | _ :: _, [], h => by simp [strLt] at h
  | [], [], h => by simp [strLt] at h
  | [], _ :: _, _ => by simp [strLt]
  | a :: as, b :: bs, h => by
    simp only [strLt] at h ⊢
    by_cases hab : a.toNat < b.toNat
    · have hba : ¬ b.toNat < a.toNat := by omega
      simp [hab, hba]
    · by_cases hba : b.toNat < a.toNat
      · simp [hab, hba] at h
      · simp only [hab, hba, if_false] at h ⊢
        exact strLt_asymm as bs h

/-- Byte-lexicographic less-than is total on distinct lists. -/
theorem strLt_total : ∀ x y : List Char, x ≠ y → strLt x y = true ∨ strLt y x = true
  | [], [], h => absurd rfl h
  | [], _ :: _, _ => Or.inl (by simp [strLt])
  | _ :: _, [], _ => Or.inr (by simp [strLt])
  | a :: as, b :: bs, h => by
    by_cases hab : a.toNat < b.toNat
    · exact Or.inl (by simp [strLt, hab])
    · by_cases hba : b.toNat < a.toNat
      · exact Or.inr (by simp [strLt, hba])
      · have hab2 : a = b := char_toNat_inj (by omega)
        subst hab2
        have hne : as ≠ bs := fun hh => h (by rw [hh])
        rcases strLt_total as bs hne with h1 | h1
        · exact Or.inl (by simp [strLt, h1])
        · exact Or.inr (by simp [strLt, h1])

/-- compareInt is antisymmetric. -/
theorem compareInt_antisymm (x y : List Char) : compareInt x y = -compareInt y x := by
  unfold compareInt
  by_cases hxy : x = y
  · subst hxy; simp
  · have hyx : ¬ y = x := fun h2 => hxy h2.symm
    by_cases h1 : x.length < y.length
    · have h2 : ¬ y.length < x.length := by omega
      simp [hxy, hyx, h1, h2]
    · by_cases h2 : y.length < x.length
      · simp [hxy, hyx, h1, h2]
      · by_cases h3 : strLt x y = true
        · have h4 : strLt y x = false := strLt_asymm x y h3
          simp [hxy, hyx, h1, h2, h3, h4]
        · have h4 : strLt y x = true :=
            (strLt_total x y hxy).resolve_left (by simpa using h3)
          simp [hxy, hyx, h1, h2, h3, h4]

/-- The per-identifier comparison is antisymmetric on distinct identifiers. -/
theorem cmpIdent_antisymm (dx dy : List Char) (h : dx ≠ dy) :
    cmpIdent dx dy = -cmpIdent dy dx := by
  have hyx : dy ≠ dx := fun h2 => h h2.symm
  unfold cmpIdent
  by_cases nx : isNum dx <;> by_cases ny : isNum dy
  · by_cases h1 : dx.length < dy.length
    · have h2 : ¬ dy.length < dx.length := by omega
      simp [nx, ny, h1, h2]
    · by_cases h2 : dy.length < dx.length
      · simp [nx, ny, h1, h2]
      · by_cases h3 : strLt dx dy = true
        · have h4 : strLt dy dx = false := strLt_asymm dx dy h3
          simp [nx, ny, h1, h2, h3, h4]
        · have h4 : strLt dy dx = true :=
            (strLt_total dx dy h).resolve_left (by simpa using h3)
          simp [nx, ny, h1, h2, h3, h4]
  · simp [nx, ny]
  · simp [nx, ny]
  · by_cases h3 : strLt dx dy = true
    · have h4 : strLt dy dx = false := strLt_asymm dx dy h3
      simp [nx, ny, h3, h4]
    · have h4 : strLt dy dx = true :=
        (strLt_total dx dy h).resolve_left (by simpa using h3)
      simp [nx, ny, h3, h4]

/-- The head of a nonempty dropWhile result falsifies the predicate. -/
theorem dropWhile_head_false (p : Char → Bool) :
    ∀ (l : List Char) c rest, l.dropWhile p = c :: rest → p c = false
  | [], c, rest, h => by simp [List.dropWhile] at h
  | a :: as, c, rest, h => by
    simp only [List.dropWhile] at h
    cases hp : p a with
    | true =>
      rw [hp] at h
      exact dropWhile_head_false p as c rest h
    | false =>
      rw [hp] at h
      cases h
      exact hp

/-- The prerelease loop is antisymmetric when the tails after the dropped
head characters are distinct (the only way the program calls it). -/
theorem comparePreLoop_antisymm (x y : List Char) (a b : Char) (hne : x ≠ y) :
    comparePreLoop (a :: x) (b :: y) = -comparePreLoop (b :: y) (a :: x) := by
  rw [comparePreLoop, comparePreLoop]
  by_cases hd : x.takeWhile (fun c => c != '.') = y.takeWhile (fun c => c != '.')
  · rw [if_pos hd, if_pos hd.symm]
    have hx1y1 : x.dropWhile (fun c => c != '.') ≠ y.dropWhile (fun c => c != '.') := by
      intro hcon
      apply hne
      have hxx := (List.takeWhile_append_dropWhile (fun c => c != '.') x).symm
      have hyy := (List.takeWhile_append_dropWhile (fun c => c != '.') y).symm
      rw [hxx, hyy, hd, hcon]
    rcases hxd : x.dropWhile (fun c => c != '.') with _ | ⟨cx, xt⟩ <;>
      rcases hyd : y.dropWhile (fun c => c != '.') with _ | ⟨cy, yt⟩
    · rw [hxd, hyd] at hx1y1; exact absurd rfl hx1y1
    · simp [comparePreLoop]
    · simp [comparePreLoop]
    · have htne : xt ≠ yt := by
        have hcx : cx = '.' := by
          have hh := dropWhile_head_false _ x cx xt hxd
          simpa using hh
        have hcy : cy = '.' := by
          have hh := dropWhile_head_false _ y cy yt hyd
          simpa using hh
        intro hcon
        rw [hxd, hyd, hcx, hcy, hcon] at hx1y1
        exact hx1y1 rfl
      have hxlen : xt.length < x.length := by
        have h1 : (x.dropWhile (fun c => c != '.')).length ≤ x.length :=
          (List.dropWhile_sublist _).length_le
        rw [hxd] at h1
        simp only [List.length_cons] at h1
        omega
      exact comparePreLoop_antisymm xt yt cx cy htne
  · rw [if_neg hd, if_neg (fun h2 => hd h2.symm)]
    exact cmpIdent_antisymm _ _ hd
termination_by x.length
decreasing_by exact hxlen

/-- comparePrerelease is antisymmetric on prerelease fields as produced by
parse: empty or starting with a hyphen. -/
theorem comparePrerelease_antisymm (x y : List Char)
    (hx : x = [] ∨ ∃ t, x = '-' :: t) (hy : y = [] ∨ ∃ t, y = '-' :: t) :
    comparePrerelease x y = -comparePrerelease y x := by
  unfold comparePrerelease
  by_cases hxy : x = y
  · subst hxy; simp
  · have hyx : y ≠ x := fun h2 => hxy h2.symm
    rcases hx with hx | ⟨tx, hx⟩ <;> rcases hy with hy | ⟨ty, hy⟩
    · exact absurd (hx.trans hy.symm) hxy
    · subst hx; subst hy; simp [hxy, hyx]
    · subst hx; subst hy; simp [hxy, hyx]
    · subst hx; subst hy
      have htne : tx ≠ ty := fun hcon => hxy (by rw [hcon])
      have hloop := comparePreLoop_antisymm tx ty '-' '-' htne
      simp [hxy, hyx, hloop]

/-- Every successful parsePrerelease result starts with a hyphen. -/
theorem parsePrerelease_shape (v t rest : List Char)
    (h : parsePrerelease v = some (t, rest)) : ∃ b, t = '-' :: b := by
  unfold parsePrerelease at h
  split at h
  · simp only [] at h
    split at h
    · simp only [Option.some.injEq, Prod.mk.injEq] at h
      exact ⟨_, h.1.symm⟩
    · simp at h
  · simp at h

/-- Helper for parseTail_shape: the second half of parseTail keeps the
prerelease component unchanged. -/
theorem parseTail_snd_pre (pre1 r2 pre build : List Char)
    (h : (match r2 with
          | '+' :: _ =>
            match parseBuild r2 with
            | none => none
            | some (build, r3) => if r3 = [] then some (pre1, build) else none
          | _ => if r2 = [] then some (pre1, []) else none) =
        some (pre, build)) : pre = pre1 := by
  split at h
  · split at h
    · simp at h
    · split at h
      · simp only [Option.some.injEq, Prod.mk.injEq] at h
        exact h.1.symm
      · simp at h
  · split at h
    · simp only [Option.some.injEq, Prod.mk.injEq] at h
      exact h.1.symm
    · simp at h

/-- The prerelease field of every parseTail result is empty or starts with
a hyphen. -/
theorem parseTail_shape (r pre build : List Char)
    (h : parseTail r = some (pre, build)) :
    pre = [] ∨ ∃ t, pre = '-' :: t := by
  unfold parseTail at h
  split at h
  · rename_i w
    cases hp : parsePrerelease ('-' :: w) with
    | none => rw [hp] at h; simp at h
    | some pr =>
      rw [hp] at h
      obtain ⟨pre1, r2⟩ := pr
      rw [parseTail_snd_pre pre1 r2 pre build h]
      obtain ⟨b1, hb1⟩ := parsePrerelease_shape _ _ _ hp
      exact Or.inr ⟨b1, hb1⟩
  · rw [parseTail_snd_pre [] r pre build h]
    exact Or.inl rfl

/-- The prerelease field of every parse result is empty or starts with a
hyphen. -/
theorem parse_shape (l : List Char) (p : Parsed) (h : parse l = some p) :
    p.prerelease = [] ∨ ∃ t, p.prerelease = '-' :: t := by
  unfold parse at h
  split at h
  · split at h
    · simp at h
    · split at h
      · simp only [Option.some.injEq] at h
        rw [← h]
        exact Or.inl rfl
      · split at h
        · split at h
          · simp at h
          · split at h
            · simp only [Option.some.injEq] at h
              rw [← h]
              exact Or.inl rfl
            · split at h
              · split at h
                · simp at h
                · split at h
                  · simp at h
                  · rename_i htail
                    simp only [Option.some.injEq] at h
                    rw [← h]
                    exact parseTail_shape _ _ _ htail
              · simp at h
        · simp at h
  · simp at h

/-- Compare is antisymmetric: swapping the arguments negates the result. -/
theorem compare_antisymm (v w : String) : compare v w = -compare w v := by
  unfold compare
  cases hv : parse v.data with
  | none =>
    cases hw : parse w.data with
    | none => simp
    | some pw => simp
  | some pv =>
    cases hw : parse w.data with
    | none => simp
    | some pw =>
      simp only []
      have h1 := compareInt_antisymm pv.major pw.major
      have h2 := compareInt_antisymm pv.minor pw.minor
      have h3 := compareInt_antisymm pv.patch pw.patch
      have h4 := comparePrerelease_antisymm pv.prerelease pw.prerelease
        (parse_shape _ _ hv) (parse_shape _ _ hw)
      by_cases c1 : compareInt pv.major pw.major = 0
      · have c1r : compareInt pw.major pv.major = 0 := by omega
        by_cases c2 : compareInt pv.minor pw.minor = 0
        · have c2r : compareInt pw.minor pv.minor = 0 := by omega
          by_cases c3 : compareInt pv.patch pw.patch = 0
          · have c3r : compareInt pw.patch pv.patch = 0 := by omega
            simp [c1, c2, c3, c1r, c2r, c3r, h4]
          · have c3r : ¬ compareInt pw.patch pv.patch = 0 := by omega
            simp [c1, c2, c3, c1r, c2r, c3r, h3]
        · have c2r : ¬ compareInt pw.minor pv.minor = 0 := by omega
          simp [c1, c2, c1r, c2r, h2]
      · have c1r : ¬ compareInt pw.major pv.major = 0 := by omega
        simp [c1, c1r, h1]

end Semver

namespace ListFile

/-- The filter applied to each scanned line of the list file in
updateListFile (src/gopack.go lines 148..157): empty lines are skipped and
only lines for which semver.IsValid holds are kept. -/
def keepLine (line : String) : Bool := !(line == "") && Semver.isValid line

/-- Reading the existing list file: the kept lines, in file order. The
file state is modelled as its list of lines; every line the program itself
writes is a valid semver and hence newline free, so the correspondence
between the line list and the file bytes is exact. -/
def readLines (lines : List String) : List String := lines.filter keepLine

/-- Lines 165..172 of src/gopack.go: the new version is appended exactly
when it is not already present. The Go code consults a set built from the
existing entries, which holds precisely the members of the list. -/
def insertIfMissing (existing : List String) (newVer : String) : List String :=
  if newVer ∈ existing then existing else existing ++ [newVer]

/-- The in-memory list just before sorting: the kept lines of the initial
file (none models an absent file, in which case os.Open fails with
IsNotExist and the program keeps the empty slice) with the new version
inserted if missing. -/
def mergeList (initial : Option (List String)) (newVer : String) : List String :=
  insertIfMissing (readLines (initial.getD [])) newVer

/-- The less function passed to sort.Slice at line 175 of src/gopack.go:
semver.Compare negative. -/
def svLess (a b : String) : Bool := decide (Semver.compare a b < 0)

/-- The postcondition sort.Slice guarantees for the less function svLess:
no adjacent pair is out of order. -/
def SortedByGo (l : List String) : Prop :=
  l.Chain' (fun a b => svLess b a = false)

/-- One successful updateListFile call, as a relation between the initial
file state, the new version, and the written line list. sort.Slice fixes
only that the result is a permutation of its input that is sorted for the
less function (the algorithm is not stable), so every such permutation is
a possible output. -/
def UpdateList (initial : Option (List String)) (newVer : String)
    (out : List String) : Prop :=
  out.Perm (mergeList initial newVer) ∧ SortedByGo out

/-- Lines 180..183 of src/gopack.go: the file content is each entry
followed by a newline. -/
def listContent (l : List String) : String :=
  String.join (l.map (fun v => v ++ "\n"))

/-- A sequence of successful updateListFile invocations: each one reads
the line list the previous one wrote. -/
inductive RunSeq : Option (List String) → List String → List String → Prop
  | last {init : Option (List String)} {v : String} {out : List String} :
      UpdateList init v out → RunSeq init [v] out
  | step {init : Option (List String)} {v : String} {vs : List String}
      {out : List String} (mid : List String) :
      UpdateList init v mid → RunSeq (some mid) vs out → RunSeq init (v :: vs) out

/-- Executable check for SortedByGo. -/
def sortedByGoB : List String → Bool
  | [] => true
  | [_] => true
  | a :: b :: t => !svLess b a && sortedByGoB (b :: t)

/-- The executable check agrees with SortedByGo. -/
theorem sortedByGo_iff_b : ∀ l : List String, SortedByGo l ↔ sortedByGoB l = true
  | [] => by simp [SortedByGo, sortedByGoB]
  | [a] => by simp [SortedByGo, sortedByGoB]
  | a :: b :: t => by
    rw [SortedByGo, List.chain'_cons]
    have ih := sortedByGo_iff_b (b :: t)
    rw [SortedByGo] at ih
    simp [sortedByGoB, ih]

instance (l : List String) : Decidable (SortedByGo l) :=
  decidable_of_decidable_of_iff (sortedByGo_iff_b l).symm

instance (i : Option (List String)) (v : String) (out : List String) :
    Decidable (UpdateList i v out) :=
  decidable_of_decidable_of_iff
    (p := out.isPerm (mergeList i v) = true ∧ sortedByGoB out = true)
    (and_congr List.isPerm_iff (sortedByGo_iff_b out).symm)

/-- A valid version is not the empty string. -/
theorem valid_ne_empty {v : String} (h : Semver.isValid v = true) : v ≠ "" := by
  intro he
  rw [he] at h
  exact absurd h (by decide)

/-- A valid version passes the line filter. -/
theorem keepLine_of_valid {v : String} (h : Semver.isValid v = true) :
    keepLine v = true := by
  have hne : v ≠ "" := valid_ne_empty h
  simp [keepLine, h, hne]

/-- If the kept lines are duplicate free, so is the merged list. -/
theorem mergeList_nodup {init : Option (List String)} {v : String}
    (h : (readLines (init.getD [])).Nodup) : (mergeList init v).Nodup := by
  unfold mergeList insertIfMissing
  split
  · exact h
  · rename_i hmem
    simp [List.nodup_append, h, hmem]

/-- The new version is always a member of the merged list. -/
theorem mem_mergeList_self (init : Option (List String)) (v : String) :
    v ∈ mergeList init v := by
  unfold mergeList insertIfMissing
  split
  · assumption
  · simp

/-- Every kept line of the initial file is in the merged list. -/
theorem mergeList_superset {init : Option (List String)} {v u : String}
    (h : u ∈ readLines (init.getD [])) : u ∈ mergeList init v := by
  unfold mergeList insertIfMissing
  split
  · exact h
  · exact List.mem_append_left _ h

/-- Every member of the merged list is a kept line or the new version. -/
theorem mergeList_cases {init : Option (List String)} {v u : String}
    (h : u ∈ mergeList init v) : u ∈ readLines (init.getD []) ∨ u = v := by
  unfold mergeList insertIfMissing at h
  split at h
  · exact Or.inl h
  · rcases List.mem_append.mp h with h2 | h2
    · exact Or.inl h2
    · exact Or.inr (by simpa using h2)

/-- When the new version passes the filter, every merged entry does. -/
theorem mergeList_all_keep {init : Option (List String)} {v : String}
    (hv : keepLine v = true) :
    ∀ u ∈ mergeList init v, keepLine u = true := by
  intro u hu
  rcases mergeList_cases hu with h | h
  · exact List.of_mem_filter h
  · rw [h]; exact hv

/-- Filtering a list whose members all pass the filter is the identity. -/
theorem readLines_eq_self {s : List String}
    (h : ∀ u ∈ s, keepLine u = true) : readLines s = s :=
  List.filter_eq_self.mpr h

/-- Invariant of one or more successful updateListFile calls, for valid
versions and an initial state whose kept lines are duplicate free: the
final list is duplicate free, every entry passes the filter, every
inserted version and every kept initial line is present, and the list is
sorted in the sense of the sort.Slice postcondition. -/
theorem runSeq_main {init : Option (List String)} {vs : List String}
    {final : List String} (hrun : RunSeq init vs final) :
    (∀ v ∈ vs, Semver.isValid v = true) →
    (readLines (init.getD [])).Nodup →
    final.Nodup ∧ (∀ x ∈ final, keepLine x = true) ∧
      (∀ v ∈ vs, v ∈ final) ∧ (∀ u ∈ readLines (init.getD []), u ∈ final) ∧
      SortedByGo final := by
  induction hrun with
  | last h =>
    intro hvalid hinit
    rename_i init v out
    have hv : Semver.isValid v = true := hvalid v (by simp)
    have hperm := h.1
    refine ⟨(hperm.nodup_iff).mpr (mergeList_nodup hinit), ?_, ?_, ?_, h.2⟩
    · intro x hx
      exact mergeList_all_keep (keepLine_of_valid hv) x (hperm.mem_iff.mp hx)
    · intro v2 hv2
      rw [List.mem_singleton.mp hv2]
      exact hperm.mem_iff.mpr (mem_mergeList_self init v)
    · intro u hu
      exact hperm.mem_iff.mpr (mergeList_superset hu)
  | step mid h hrest ih =>
    intro hvalid hinit
    rename_i init v vs2 fin
    have hv : Semver.isValid v = true := hvalid v (by simp)
    have hperm := h.1
    have hmidnodup : mid.Nodup := (hperm.nodup_iff).mpr (mergeList_nodup hinit)
    have hmidkeep : ∀ u ∈ mid, keepLine u = true := by
      intro u hu
      exact mergeList_all_keep (keepLine_of_valid hv) u (hperm.mem_iff.mp hu)
    have hread : readLines ((some mid).getD []) = mid := by
      simp only [Option.getD]
      exact readLines_eq_self hmidkeep
    have hvalid2 : ∀ v2 ∈ vs2, Semver.isValid v2 = true := by
      intro v2 hv2
      exact hvalid v2 (by simp [hv2])
    obtain ⟨hnd, hkeep, hmem, hpersist, hsort⟩ := ih hvalid2 (by rw [hread]; exact hmidnodup)
    have hmid_final : ∀ u ∈ mid, u ∈ fin := by
      intro u hu
      exact hpersist u (by rw [hread]; exact hu)
    refine ⟨hnd, hkeep, ?_, ?_, hsort⟩
    · intro v2 hv2
      rcases List.mem_cons.mp hv2 with h2 | h2
      · rw [h2]
        exact hmid_final v (hperm.mem_iff.mpr (mem_mergeList_self init v))
      · exact hmem v2 h2
    · intro u hu
      exact hmid_final u (hperm.mem_iff.mpr (mergeList_superset hu))

/-- Transfers a chain property along a pointwise implication that may use
membership of both endpoints. -/
theorem chain_imp_of_mem {α : Type} {P Q : α → α → Prop} :
    ∀ (l : List α), (∀ a ∈ l, ∀ b ∈ l, P a b → Q a b) →
      l.Chain' P → l.Chain' Q
  | [], _, _ => List.chain'_nil
  | [_], _, _ => List.chain'_singleton _
  | a :: b :: t, himp, hc => by
    rw [List.chain'_cons] at hc ⊢
    refine ⟨himp a (by simp) b (by simp) hc.1, ?_⟩
    exact chain_imp_of_mem (b :: t) (fun x hx y hy => himp x (by simp [hx]) y (by simp [hy])) hc.2

/-- The sort.Slice postcondition for svLess is exactly the ascending-order
chain for Semver.compare, by antisymmetry of the comparison. -/
theorem sortedByGo_iff_ascending (l : List String) :
    SortedByGo l ↔ l.Chain' (fun a b => Semver.compare a b ≤ 0) := by
  constructor
  · intro h
    refine chain_imp_of_mem l (fun a _ b _ hp => ?_) h
    have hanti := Semver.compare_antisymm b a
    simp only [svLess, decide_eq_false_iff_not, not_lt] at hp
    omega
  · intro h
    refine chain_imp_of_mem l (fun a _ b _ hp => ?_) h
    have hanti := Semver.compare_antisymm b a
    simp only [svLess, decide_eq_false_iff_not, not_lt]
    omega

/-- All ways to insert an element into a list (kernel evaluable). -/
def insertsOf {α : Type} (a : α) : List α → List (List α)
  | [] => [[a]]
  | b :: t => (a :: b :: t) :: (insertsOf a t).map (fun l => b :: l)

/-- All permutations of a list (kernel evaluable). -/
def permsOf {α : Type} : List α → List (List α)
  | [] => [[]]
  | a :: t => (permsOf t).flatMap (insertsOf a)

/-- Inserting an element somewhere into l1 ++ l2 is an insertsOf member. -/
theorem mem_insertsOf_append {α : Type} (a : α) :
    ∀ (l1 l2 : List α), (l1 ++ a :: l2) ∈ insertsOf a (l1 ++ l2)
  | [], l2 => by
    cases l2 with
    | nil => simp [insertsOf]
    | cons b t => simp [insertsOf]
  | b :: l1, l2 => by
    simp only [List.cons_append, insertsOf, List.mem_cons, List.mem_map]
    exact Or.inr ⟨l1 ++ a :: l2, mem_insertsOf_append a l1 l2, rfl⟩

/-- Every permutation of M is enumerated by permsOf M. -/
theorem mem_permsOf_of_perm {α : Type} :
    ∀ (M l : List α), l.Perm M → l ∈ permsOf M
  | [], l, h => by
    rw [List.perm_nil.mp h]
    simp [permsOf]
  | a :: t, l, h => by
    have ha : a ∈ l := h.mem_iff.mpr (by simp)
    obtain ⟨l1, l2, rfl⟩ := List.append_of_mem ha
    have hmid : (a :: (l1 ++ l2)).Perm (a :: t) :=
      (List.perm_middle.symm).trans h
    have htail : (l1 ++ l2).Perm t := (List.perm_cons a).mp hmid
    simp only [permsOf, List.mem_flatMap]
    exact ⟨l1 ++ l2, mem_permsOf_of_perm t (l1 ++ l2) htail,
      mem_insertsOf_append a l1 l2⟩

/-- If every sorted enumeration of M equals X, any sorted list permuting M
is X. -/
theorem perm_sorted_unique {M X : List String}
    (h : ∀ l ∈ permsOf M, SortedByGo l → l = X) :
    ∀ l, l.Perm M → SortedByGo l → l = X :=
  fun l hp hs => h l (mem_permsOf_of_perm M l hp) hs

end ListFile

/-- The two files writeFileAtomic can touch: the target file dir/baseName
and the temporary file that os.CreateTemp creates in the same directory.
none models an absent file; contents are byte strings. -/
structure AtomicFS where
  target : Option String
  temp : Option String
deriving DecidableEq

/-- The steps of writeFileAtomic at which an injected failure can occur. -/
inductive AStep where
  | createTemp
  | write
  | chmod
  | close
  | rename
deriving DecidableEq

/-- Translation of writeFileAtomic (src/gopack.go lines 190..210) as a
state-transition function with an injected failure point failAt (none
means every step succeeds); the Boolean result is success. The deferred
os.Remove of the temporary name runs on every exit after creation, so
each late failure leaves no temporary file; on success the rename has
already moved it onto the target, replacing the target content with the
written data. Permission bits are not modelled (chmod changes no
content). -/
def writeFileAtomic (fs : AtomicFS) (data : String) (failAt : Option AStep) :
    AtomicFS × Bool :=
  if failAt = some AStep.createTemp then (fs, false)
  else
    let fs1 : AtomicFS := { target := fs.target, temp := some "" }
    if failAt = some AStep.write then ({ target := fs1.target, temp := none }, false)
    else
      let fs2 : AtomicFS := { target := fs1.target, temp := some data }
      if failAt = some AStep.chmod then ({ target := fs2.target, temp := none }, false)
      else if failAt = some AStep.close then ({ target := fs2.target, temp := none }, false)
      else if failAt = some AStep.rename then ({ target := fs2.target, temp := none }, false)
      else ({ target := fs2.temp, temp := none }, true)

namespace ModEscape

/-- Uppercase ASCII letter, the byte range A..Z checked by escapeString of
golang.org/x/mod/module. -/
def isUpper (c : Char) : Bool := 65 ≤ c.toNat && c.toNat ≤ 90

/-- Translation of escapeString from golang.org/x/mod/module: fail on an
exclamation mark or a non-ASCII rune; if no uppercase letter occurs return
the input unchanged; otherwise replace every uppercase letter by an
exclamation mark followed by its lowercase form (byte value plus 32). -/
def escapeString (s : List Char) : Option (List Char) :=
  if s.any (fun c => c == '!' || 128 ≤ c.toNat) then none
  else if s.any isUpper then
    some (s.flatMap (fun c =>
      if isUpper c then ['!', Char.ofNat (c.toNat + 32)] else [c]))
  else some s

/-- ASCII lower casing of a character list: each uppercase letter gets its
byte value plus 32, other characters are unchanged. -/
def lowerAscii (s : List Char) : List Char :=
  s.map (fun c => if isUpper c then Char.ofNat (c.toNat + 32) else c)

/-- Code point of Char.ofNat for small valid values. -/
theorem toNat_ofNat_valid {n : Nat} (h : n < 55296) :
    (Char.ofNat n).toNat = n := by
  have hv : n.isValidChar := Or.inl h
  simp [Char.ofNat, hv, Char.ofNatAux, Char.toNat, UInt32.toNat,
    BitVec.toNat_ofNatLt]

end ModEscape

/-- Filesystem operations the program performs, in the order they
complete. Only operations that succeed are recorded. writeFile is the
whole-file truncate-write of os.WriteFile at a final path; writeTemp is
zip.CreateFromDir writing into the open temporary file. -/
inductive FOp where
  | readFile (path : String)
  | mkdirAll (path : String)
  | writeFile (path : String) (data : String)
  | createTemp (dir : String) (pattern : String)
  | writeTemp (name : String) (data : String)
  | closeFile (name : String)
  | rename (src : String) (dst : String)
  | remove (path : String)
deriving DecidableEq

/-- The failure exits of run, in program order (src/gopack.go lines
37..135). -/
inductive RunErr where
  | missingFlags
  | invalidVersion
  | readGoMod
  | parseGoMod
  | noModulePath
  | escapePath
  | escapeVersion
  | mkdir
  | writeMod
  | writeInfo
  | createTemp
  | zipCreate
  | closeZip
  | renameZip
  | updateList
deriving DecidableEq

/-- filepath.Join as the program uses it: every join here appends one
clean relative component to a base path, where Join is concatenation with
one separator. -/
def pjoin (a b : String) : String := a ++ "/" ++ b

/-- The bytes written to the .info file: json.Marshal of the info struct
(fields in declaration order Version, Time) with the newline appended at
line 98. The timestamp is the RFC3339 serialization of time.Now().UTC(),
supplied as the opaque string t. -/
def infoContent (version t : String) : String :=
  "\x7b\"Version\":\"" ++ version ++ "\",\"Time\":\"" ++ t ++ "\"\x7d\n"

/-- Results of the external effects run consumes, fixed up front: with the
same oracle, the same inputs give the same run. Library calls
(modfile.Parse, module.EscapePath, module.EscapeVersion, zip.CreateFromDir)
are deterministic functions of their arguments, so they appear as function
fields. -/
structure Oracle where
  /-- Result of filepath.Abs on the src flag (pure path arithmetic plus a
  getwd lookup; never mutates the filesystem). -/
  absSrc : String
  /-- Result of os.ReadFile on absSrc/go.mod. -/
  goMod : Except Unit String
  /-- modfile.Parse plus the module-path extraction of lines 63..70: the
  declared module path of the given go.mod bytes; the empty string models
  a nil Module section or an empty path, error a parse failure. -/
  modPathOf : String → Except Unit String
  /-- module.EscapePath. -/
  escPathOf : String → Except Unit String
  /-- module.EscapeVersion. -/
  escVerOf : String → Except Unit String
  /-- os.MkdirAll success. -/
  mkdirOk : Bool
  /-- os.WriteFile success for the .mod file. -/
  writeModOk : Bool
  /-- os.WriteFile success for the .info file. -/
  writeInfoOk : Bool
  /-- os.CreateTemp in the @v directory: the fresh temporary file name. -/
  tmpZipName : Except Unit String
  /-- zip.CreateFromDir archive bytes for module path, version and source
  directory (reproducible per its contract). -/
  zipBytesOf : String → String → String → String
  /-- zip.CreateFromDir success. -/
  zipOk : Bool
  /-- tmp.Close success. -/
  closeOk : Bool
  /-- os.Rename success for the zip. -/
  renameZipOk : Bool
  /-- Filesystem operations performed by the updateListFile attempt. -/
  listTrace : List FOp
  /-- updateListFile success. -/
  listOk : Bool

/-- Translation of run of the first program variant (src/gopack.go lines
37..135): flag and version validation, go.mod read and parse, escaping,
directory creation, the three per-version files, then the list update.
Returns the trace of completed filesystem operations and either the error
or the file paths the final printf reports. The deferred tmp.Close and
os.Remove run on every exit after os.CreateTemp succeeded; a close or
remove of an already closed or renamed file fails silently and is not
recorded. -/
def runA (srcDir version outRoot : String) (o : Oracle) (time : String) :
    List FOp × Except RunErr (List String) :=
  if srcDir = "" ∨ version = "" ∨ outRoot = "" then
    ([], Except.error RunErr.missingFlags)
  else if Semver.isValid version = false then
    ([], Except.error RunErr.invalidVersion)
  else
    match o.goMod with
    | Except.error _ => ([], Except.error RunErr.readGoMod)
    | Except.ok goModBytes =>
      let t0 := [FOp.readFile (pjoin o.absSrc "go.mod")]
      match o.modPathOf goModBytes with
      | Except.error _ => (t0, Except.error RunErr.parseGoMod)
      | Except.ok modPath =>
        if modPath = "" then (t0, Except.error RunErr.noModulePath)
        else
          match o.escPathOf modPath with
          | Except.error _ => (t0, Except.error RunErr.escapePath)
          | Except.ok escPath =>
            match o.escVerOf version with
            | Except.error _ => (t0, Except.error RunErr.escapeVersion)
            | Except.ok escVer =>
              let atV := pjoin (pjoin outRoot escPath) "@v"
              if o.mkdirOk = false then (t0, Except.error RunErr.mkdir)
              else
                let t1 := t0 ++ [FOp.mkdirAll atV]
                let modFile := pjoin atV (escVer ++ ".mod")
                if o.writeModOk = false then (t1, Except.error RunErr.writeMod)
                else
                  let t2 := t1 ++ [FOp.writeFile modFile goModBytes]
                  let infoFile := pjoin atV (escVer ++ ".info")
                  if o.writeInfoOk = false then (t2, Except.error RunErr.writeInfo)
                  else
                    let t3 := t2 ++ [FOp.writeFile infoFile (infoContent version time)]
                    match o.tmpZipName with
                    | Except.error _ => (t3, Except.error RunErr.createTemp)
                    | Except.ok tz =>
                      let t4 := t3 ++ [FOp.createTemp atV "zip-*"]
                      if o.zipOk = false then
                        (t4 ++ [FOp.closeFile tz, FOp.remove tz],
                         Except.error RunErr.zipCreate)
                      else
                        let t5 := t4 ++ [FOp.writeTemp tz (o.zipBytesOf modPath version o.absSrc)]
                        if o.closeOk = false then
                          (t5 ++ [FOp.remove tz], Except.error RunErr.closeZip)
                        else
                          let t6 := t5 ++ [FOp.closeFile tz]
                          let zipFile := pjoin atV (escVer ++ ".zip")
                          if o.renameZipOk = false then
                            (t6 ++ [FOp.remove tz], Except.error RunErr.renameZip)
                          else
                            let t7 := t6 ++ [FOp.rename tz zipFile]
                            let t8 := t7 ++ o.listTrace
                            if o.listOk = false then (t8, Except.error RunErr.updateList)
                            else
                              (t8, Except.ok [modFile, infoFile, zipFile, pjoin atV "list"])

/-- Translation of run of the second program variant (src/gopack.go lines
245..337): textually identical to the first variant up to and including
the zip rename, with no list update and a three-path success report. -/
def runB (srcDir version outRoot : String) (o : Oracle) (time : String) :
    List FOp × Except RunErr (List String) :=
  if srcDir = "" ∨ version = "" ∨ outRoot = "" then
    ([], Except.error RunErr.missingFlags)
  else if Semver.isValid version = false then
    ([], Except.error RunErr.invalidVersion)
  else
    match o.goMod with
    | Except.error _ => ([], Except.error RunErr.readGoMod)
    | Except.ok goModBytes =>
      let t0 := [FOp.readFile (pjoin o.absSrc "go.mod")]
      match o.modPathOf goModBytes with
      | Except.error _ => (t0, Except.error RunErr.parseGoMod)
      | Except.ok modPath =>
        if modPath = "" then (t0, Except.error RunErr.noModulePath)
        else
          match o.escPathOf modPath with
          | Except.error _ => (t0, Except.error RunErr.escapePath)
          | Except.ok escPath =>
            match o.escVerOf version with
            | Except.error _ => (t0, Except.error RunErr.escapeVersion)
            | Except.ok escVer =>
              let atV := pjoin (pjoin outRoot escPath) "@v"
              if o.mkdirOk = false then (t0, Except.error RunErr.mkdir)
              else
                let t1 := t0 ++ [FOp.mkdirAll atV]
                let modFile := pjoin atV (escVer ++ ".mod")
                if o.writeModOk = false then (t1, Except.error RunErr.writeMod)
                else
                  let t2 := t1 ++ [FOp.writeFile modFile goModBytes]
                  let infoFile := pjoin atV (escVer ++ ".info")
                  if o.writeInfoOk = false then (t2, Except.error RunErr.writeInfo)
                  else
                    let t3 := t2 ++ [FOp.writeFile infoFile (infoContent version time)]
                    match o.tmpZipName with
                    | Except.error _ => (t3, Except.error RunErr.createTemp)
                    | Except.ok tz =>
                      let t4 := t3 ++ [FOp.createTemp atV "zip-*"]
                      if o.zipOk = false then
                        (t4 ++ [FOp.closeFile tz, FOp.remove tz],
                         Except.error RunErr.zipCreate)
                      else
                        let t5 := t4 ++ [FOp.writeTemp tz (o.zipBytesOf modPath version o.absSrc)]
                        if o.closeOk = false then
                          (t5 ++ [FOp.remove tz], Except.error RunErr.closeZip)
                        else
                          let t6 := t5 ++ [FOp.closeFile tz]
                          let zipFile := pjoin atV (escVer ++ ".zip")
                          if o.renameZipOk = false then
                            (t6 ++ [FOp.remove tz], Except.error RunErr.renameZip)
                          else
                            let t7 := t6 ++ [FOp.rename tz zipFile]
                            (t7, Except.ok [modFile, infoFile, zipFile])

/-- The @v directory path both variants compute, recovered from the
oracle; meaningful whenever the run reaches the layout step. -/
def atVOf (outRoot : String) (o : Oracle) : String :=
  match o.goMod with
  | Except.error _ => ""
  | Except.ok gm =>
    match o.modPathOf gm with
    | Except.error _ => ""
    | Except.ok mp =>
      match o.escPathOf mp with
      | Except.error _ => ""
      | Except.ok ep => pjoin (pjoin outRoot ep) "@v"

/-- Structural equality decision for Except, kept tactic free so that the
kernel can evaluate it inside decide. -/
def exceptDecEq {ε α : Type} [DecidableEq ε] [DecidableEq α] :
    (a b : Except ε α) → Decidable (a = b)
  | Except.error e1, Except.error e2 =>
    if h : e1 = e2 then isTrue (congrArg Except.error h)
    else isFalse (fun hc => h (by injection hc))
  | Except.error _, Except.ok _ => isFalse (fun hc => Except.noConfusion hc)
  | Except.ok _, Except.error _ => isFalse (fun hc => Except.noConfusion hc)
  | Except.ok a1, Except.ok a2 =>
    if h : a1 = a2 then isTrue (congrArg Except.ok h)
    else isFalse (fun hc => h (by injection hc))

instance {ε α : Type} [DecidableEq ε] [DecidableEq α] :
    DecidableEq (Except ε α) := exceptDecEq

/-- A fully successful oracle over a one-module world, for concrete run
instances. -/
def okOracle : Oracle :=
  { absSrc := "/src"
    goMod := Except.ok "module example.com/m\n"
    modPathOf := fun _ => Except.ok "example.com/m"
    escPathOf := fun p => Except.ok p
    escVerOf := fun v => Except.ok v
    mkdirOk := true
    writeModOk := true
    writeInfoOk := true
    tmpZipName := Except.ok "/out/example.com/m/@v/zip-123"
    zipBytesOf := fun _ _ _ => "ZIPBYTES"
    zipOk := true
    closeOk := true
    renameZipOk := true
    listTrace := []
    listOk := true }

/-- Trace of the first run variant when every step succeeds: read, mkdir,
two direct file writes, then the temporary zip written, closed and renamed,
then the list-update operations. -/
theorem runA_success_trace (s v outR t gm mp ep ev tz : String) (o : Oracle)
    (hs : ¬(s = "" ∨ v = "" ∨ outR = "")) (hval : Semver.isValid v = true)
    (h1 : o.goMod = Except.ok gm) (h2 : o.modPathOf gm = Except.ok mp)
    (h3 : mp ≠ "") (h4 : o.escPathOf mp = Except.ok ep)
    (h5 : o.escVerOf v = Except.ok ev)
    (h6 : o.mkdirOk = true) (h7 : o.writeModOk = true)
    (h8 : o.writeInfoOk = true) (h9 : o.tmpZipName = Except.ok tz)
    (h10 : o.zipOk = true) (h11 : o.closeOk = true)
    (h12 : o.renameZipOk = true) :
    (runA s v outR o t).1 =
      [FOp.readFile (pjoin o.absSrc "go.mod"),
       FOp.mkdirAll (pjoin (pjoin outR ep) "@v"),
       FOp.writeFile (pjoin (pjoin (pjoin outR ep) "@v") (ev ++ ".mod")) gm,
       FOp.writeFile (pjoin (pjoin (pjoin outR ep) "@v") (ev ++ ".info"))
         (infoContent v t),
       FOp.createTemp (pjoin (pjoin outR ep) "@v") "zip-*",
       FOp.writeTemp tz (o.zipBytesOf mp v o.absSrc),
       FOp.closeFile tz,
       FOp.rename tz (pjoin (pjoin (pjoin outR ep) "@v") (ev ++ ".zip"))] ++
      o.listTrace := by
  simp only [runA, hs, hval, h1, h2, h3, h4, h5, h6, h7, h8, h9, h10, h11, h12]
  simp
  split <;> rfl

/-- Appending distinct suffixes to the same string gives distinct
strings. -/
theorem append_ne_of_suffix_ne {a b c : String} (h : b ≠ c) :
    a ++ b ≠ a ++ c := by
  intro hcon
  apply h
  have hd := congrArg String.data hcon
  rw [String.data_append, String.data_append] at hd
  have := List.append_cancel_left hd
  exact String.ext this

/-- Joining distinct names under the same directory gives distinct
paths. -/
theorem pjoin_ne_of_ne {d b c : String} (h : b ≠ c) : pjoin d b ≠ pjoin d c := by
  unfold pjoin
  rw [String.append_assoc, String.append_assoc]
  exact append_ne_of_suffix_ne (append_ne_of_suffix_ne h)


/-- Claim C3: writeFileAtomic is atomic. For every initial state with no
leftover temporary file and every injected failure point, a failure at any
step leaves the target content unchanged, removes the temporary file, and
reports the error; only the fully successful run, whose last step is the
rename, changes the target, and it sets it to the written data. -/
theorem claim3_thm (fs : AtomicFS) (data : String) (failAt : Option AStep)
    (hfresh : fs.temp = none) :
    (failAt ≠ none →
      (writeFileAtomic fs data failAt).1.target = fs.target ∧
      (writeFileAtomic fs data failAt).1.temp = none ∧
      (writeFileAtomic fs data failAt).2 = false) ∧
    (failAt = none →
      (writeFileAtomic fs data failAt).1.target = some data ∧
      (writeFileAtomic fs data failAt).1.temp = none ∧
      (writeFileAtomic fs data failAt).2 = true) := by
  cases failAt with
  | none => simp [writeFileAtomic]
  | some st => cases st <;> simp [writeFileAtomic, hfresh]

/-- Witness for claim C3 at a concrete state: a failure of the close step
leaves the old target bytes in place, no temporary file, and failure
reported. -/
theorem claim3_witness :
    (writeFileAtomic { target := some "old", temp := none } "new"
      (some AStep.close)).1.target = some "old" ∧
    (writeFileAtomic { target := some "old", temp := none } "new"
      (some AStep.close)).1.temp = none ∧
    (writeFileAtomic { target := some "old", temp := none } "new"
      (some AStep.close)).2 = false :=
  (claim3_thm { target := some "old", temp := none } "new"
    (some AStep.close) rfl).1 (by decide)

/-- Claim C5 counterexample: the version string v1.2 is accepted by
semver.IsValid of golang.org/x/mod (shorthand versions v1 and v1.2 are
valid there), so run does not stop at validation: with every external step
succeeding it creates the @v directory and writes all files under the out
root. The claim names v1.2 as a version that is rejected before any
filesystem operation; the code proceeds instead. -/
theorem claim5_cex :
    Semver.isValid "v1.2" = true ∧
    (runA "src" "v1.2" "/out" okOracle "T2").2 =
      Except.ok ["/out/example.com/m/@v/v1.2.mod",
        "/out/example.com/m/@v/v1.2.info",
        "/out/example.com/m/@v/v1.2.zip",
        "/out/example.com/m/@v/list"] ∧
    FOp.mkdirAll "/out/example.com/m/@v" ∈ (runA "src" "v1.2" "/out" okOracle "T2").1 :=
  ⟨by decide, by decide, by decide⟩

/-- Claim C5 amended: for every version string that golang.org/x/mod
semver.IsValid rejects (this includes 1.2.3 without the leading v, but not
the shorthand v1.2, which IsValid accepts), run returns the missing-flag
or invalid-version error before performing any filesystem operation, so
the operation trace is empty and nothing under the out root is created or
modified. -/
theorem claim5_thm (s v outR t : String) (o : Oracle)
    (hv : Semver.isValid v = false) :
    (runA s v outR o t).1 = [] ∧
    ((runA s v outR o t).2 = Except.error RunErr.missingFlags ∨
     (runA s v outR o t).2 = Except.error RunErr.invalidVersion) := by
  by_cases h1 : s = "" ∨ v = "" ∨ outR = ""
  · simp [runA, h1]
  · simp [runA, h1, hv]

/-- Witness for claim C5: the version 1.2.3 without the leading v is
invalid, and the run performs no filesystem operation. -/
theorem claim5_witness :
    (runA "src" "1.2.3" "/out" okOracle "T3").1 = [] ∧
    ((runA "src" "1.2.3" "/out" okOracle "T3").2 = Except.error RunErr.missingFlags ∨
     (runA "src" "1.2.3" "/out" okOracle "T3").2 = Except.error RunErr.invalidVersion) :=
  claim5_thm "src" "1.2.3" "/out" "T3" okOracle (by decide)

/-- Claim C10: the second program variant equals the first on every input
and oracle with respect to validation, reading, parsing, escaping,
directory creation, the written bytes and every error up to the archive
step: the first variant extends the trace of the second by exactly the
list-update operations after the zip rename, fails with the update error
exactly when the list update fails, and on success reports the same three
paths plus the list path. -/
theorem claim10_thm (s v outR : String) (o : Oracle) (t : String) :
    runA s v outR o t =
      (match runB s v outR o t with
       | (tb, Except.error e) => (tb, Except.error e)
       | (tb, Except.ok ps) =>
         (tb ++ o.listTrace,
          if o.listOk = false then Except.error RunErr.updateList
          else Except.ok (ps ++ [pjoin (atVOf outR o) "list"]))) := by
  by_cases h1 : s = "" ∨ v = "" ∨ outR = ""
  · simp [runA, runB, h1]
  · by_cases h2 : Semver.isValid v = false
    · simp [runA, runB, h1, h2]
    · cases hgm : o.goMod with
      | error u => simp [runA, runB, h1, h2, hgm]
      | ok gm =>
        cases hmp : o.modPathOf gm with
        | error u => simp [runA, runB, h1, h2, hgm, hmp]
        | ok mp =>
          by_cases h3 : mp = ""
          · simp [runA, runB, h1, h2, hgm, hmp, h3]
          · cases hep : o.escPathOf mp with
            | error u => simp [runA, runB, h1, h2, hgm, hmp, h3, hep]
            | ok ep =>
              cases hev : o.escVerOf v with
              | error u => simp [runA, runB, h1, h2, hgm, hmp, h3, hep, hev]
              | ok ev =>
                by_cases h4 : o.mkdirOk = false
                · simp [runA, runB, h1, h2, hgm, hmp, h3, hep, hev, h4]
                · by_cases h5 : o.writeModOk = false
                  · simp [runA, runB, h1, h2, hgm, hmp, h3, hep, hev, h4, h5]
                  · by_cases h6 : o.writeInfoOk = false
                    · simp [runA, runB, h1, h2, hgm, hmp, h3, hep, hev, h4, h5, h6]
                    · cases htz : o.tmpZipName with
                      | error u =>
                        simp [runA, runB, h1, h2, hgm, hmp, h3, hep, hev, h4, h5, h6, htz]
                      | ok tz =>
                        by_cases h7 : o.zipOk = false
                        · simp [runA, runB, h1, h2, hgm, hmp, h3, hep, hev, h4, h5, h6, htz, h7]
                        · by_cases h8 : o.closeOk = false
                          · simp [runA, runB, h1, h2, hgm, hmp, h3, hep, hev, h4, h5, h6,
                              htz, h7, h8]
                          · by_cases h9 : o.renameZipOk = false
                            · simp [runA, runB, h1, h2, hgm, hmp, h3, hep, hev, h4, h5, h6,
                                htz, h7, h8, h9]
                            · by_cases h10 : o.listOk = false <;>
                                simp [runA, runB, atVOf, h1, h2, hgm, hmp, h3, hep, hev,
                                  h4, h5, h6, htz, h7, h8, h9, h10]

/-- Claim C1 counterexample: the claim ranges over an absent or arbitrary
initial list file, but a pre-existing file whose lines contain a valid
version twice keeps both copies through a successful invocation, because
the code deduplicates only the newly inserted version: the resulting file
has a duplicate entry. -/
theorem claim1_cex :
    ListFile.RunSeq (some ["v1.0.0", "v1.0.0"]) ["v2.0.0"]
      ["v1.0.0", "v1.0.0", "v2.0.0"] ∧
    (["v1.0.0", "v1.0.0", "v2.0.0"] : List String).count "v1.0.0" = 2 ∧
    ¬ (["v1.0.0", "v1.0.0", "v2.0.0"] : List String).Nodup :=
  ⟨ListFile.RunSeq.last (by decide), by decide, by decide⟩

/-- Claim C1 amended: for every nonempty sequence of successful
updateListFile invocations with valid versions (run validates every
version before calling updateListFile), starting from an absent list file
or one whose kept lines are duplicate free, the resulting list contains
each inserted version exactly once, has no duplicate entries, and is
sorted ascending by semantic-version comparison; the file bytes are one
version per line with a trailing newline by the listContent layout. -/
theorem claim1_thm (vs : List String) (init : Option (List String))
    (final : List String)
    (hvs : ∀ v ∈ vs, Semver.isValid v = true)
    (hinit : (ListFile.readLines (init.getD [])).Nodup)
    (hrun : ListFile.RunSeq init vs final) :
    final.Nodup ∧ (∀ v ∈ vs, final.count v = 1) ∧
      final.Chain' (fun a b => Semver.compare a b ≤ 0) := by
  obtain ⟨hnd, hkeep, hmem, hpers, hsort⟩ := ListFile.runSeq_main hrun hvs hinit
  refine ⟨hnd, ?_, (ListFile.sortedByGo_iff_ascending final).mp hsort⟩
  intro v hv
  exact List.count_eq_one_of_mem hnd (hmem v hv)

/-- Witness for claim C1: inserting v1.2.0 then v1.0.0 from an absent file
yields a duplicate-free ascending list holding each version once. -/
theorem claim1_witness :
    (["v1.0.0", "v1.2.0"] : List String).Nodup ∧
    (∀ v ∈ ["v1.2.0", "v1.0.0"], (["v1.0.0", "v1.2.0"] : List String).count v = 1) ∧
    (["v1.0.0", "v1.2.0"] : List String).Chain' (fun a b => Semver.compare a b ≤ 0) :=
  claim1_thm ["v1.2.0", "v1.0.0"] none ["v1.0.0", "v1.2.0"]
    (by decide) (by decide)
    (ListFile.RunSeq.step ["v1.2.0"] (by decide) (ListFile.RunSeq.last (by decide)))

/-- Claim C2 counterexample: the four stated insertions from an absent
file produce the semver-ascending list v1.0.0, v1.2.0, v2.0.0-beta, whose
content differs from the content the claim states: v2.0.0-beta has major
version 2 and therefore sorts after v1.2.0, not before it. -/
theorem claim2_cex :
    ListFile.RunSeq none ["v1.2.0", "v1.0.0", "v1.2.0", "v2.0.0-beta"]
      ["v1.0.0", "v1.2.0", "v2.0.0-beta"] ∧
    ListFile.listContent ["v1.0.0", "v1.2.0", "v2.0.0-beta"] ≠
      "v1.0.0\nv2.0.0-beta\nv1.2.0\n" :=
  ⟨ListFile.RunSeq.step ["v1.2.0"] (by decide)
    (ListFile.RunSeq.step ["v1.0.0", "v1.2.0"] (by decide)
      (ListFile.RunSeq.step ["v1.0.0", "v1.2.0"] (by decide)
        (ListFile.RunSeq.last (by decide)))),
   by decide⟩

/-- Claim C2 amended: starting from no list file, the inputs v1.2.0,
v1.0.0, v1.2.0, v2.0.0-beta applied through updateListFile yield exactly
the list v1.0.0, v1.2.0, v2.0.0-beta, with file content
v1.0.0 v1.2.0 v2.0.0-beta each followed by a newline: every possible
sort.Slice output is this one list. -/
theorem claim2_thm (final : List String)
    (hrun : ListFile.RunSeq none ["v1.2.0", "v1.0.0", "v1.2.0", "v2.0.0-beta"] final) :
    final = ["v1.0.0", "v1.2.0", "v2.0.0-beta"] ∧
    ListFile.listContent final = "v1.0.0\nv1.2.0\nv2.0.0-beta\n" := by
  cases hrun with
  | step mid1 h1 hrest1 =>
    have hm1 : mid1 = ["v1.2.0"] :=
      ListFile.perm_sorted_unique (by decide) mid1 h1.1 h1.2
    subst hm1
    cases hrest1 with
    | step mid2 h2 hrest2 =>
      have hm2 : mid2 = ["v1.0.0", "v1.2.0"] :=
        ListFile.perm_sorted_unique (by decide) mid2 h2.1 h2.2
      subst hm2
      cases hrest2 with
      | step mid3 h3 hrest3 =>
        have hm3 : mid3 = ["v1.0.0", "v1.2.0"] :=
          ListFile.perm_sorted_unique (by decide) mid3 h3.1 h3.2
        subst hm3
        cases hrest3 with
        | last h4 =>
          have hf : final = ["v1.0.0", "v1.2.0", "v2.0.0-beta"] :=
            ListFile.perm_sorted_unique (by decide) final h4.1 h4.2
          subst hf
          exact ⟨rfl, by decide⟩
        | step mid4 h4 hrest4 => cases hrest4

/-- Witness for claim C2: the stated sequence of invocations is realizable
and produces the amended content. -/
theorem claim2_witness :
    (["v1.0.0", "v1.2.0", "v2.0.0-beta"] : List String) =
      ["v1.0.0", "v1.2.0", "v2.0.0-beta"] ∧
    ListFile.listContent ["v1.0.0", "v1.2.0", "v2.0.0-beta"] =
      "v1.0.0\nv1.2.0\nv2.0.0-beta\n" :=
  claim2_thm ["v1.0.0", "v1.2.0", "v2.0.0-beta"]
    (ListFile.RunSeq.step ["v1.2.0"] (by decide)
      (ListFile.RunSeq.step ["v1.0.0", "v1.2.0"] (by decide)
        (ListFile.RunSeq.step ["v1.0.0", "v1.2.0"] (by decide)
          (ListFile.RunSeq.last (by decide)))))

/-- Claim C6 counterexample: blank and non-semver lines are indeed
dropped, but the claim also states the rewritten file is deduplicated;
with a corrupt pre-existing file that repeats a valid version, every
successful updateListFile output keeps both copies, so the written file is
not deduplicated. -/
theorem claim6_cex :
    ListFile.UpdateList (some ["", "not-semver", "v1.0.0", "v1.0.0"]) "v1.1.0"
      ["v1.0.0", "v1.0.0", "v1.1.0"] ∧
    ¬ (["v1.0.0", "v1.0.0", "v1.1.0"] : List String).Nodup :=
  ⟨by decide, by decide⟩

/-- Claim C6 amended: when the kept lines of the pre-existing file are
duplicate free, a successful updateListFile drops exactly the blank and
non-semver lines and rewrites the file as a permutation-free sorted list
of the kept lines plus the new version: the output is a sorted
deduplicated permutation of the kept lines with the new version inserted
if missing, every output entry is a kept line or the new version, and
every dropped line different from the new version is absent; no error
arises from the dropped lines, as the relation is inhabited for every
such file (the witness exhibits a run). -/
theorem claim6_thm (init : List String) (v : String) (out : List String)
    (hnd : (ListFile.readLines init).Nodup)
    (h : ListFile.UpdateList (some init) v out) :
    out.Perm (ListFile.insertIfMissing (init.filter ListFile.keepLine) v) ∧
    out.Nodup ∧
    (∀ u ∈ out, u ∈ init.filter ListFile.keepLine ∨ u = v) ∧
    (∀ u ∈ init, ListFile.keepLine u = false → u ≠ v → u ∉ out) ∧
    ListFile.SortedByGo out := by
  refine ⟨h.1, (h.1.nodup_iff).mpr (ListFile.mergeList_nodup hnd), ?_, ?_, h.2⟩
  · intro u hu
    exact ListFile.mergeList_cases (h.1.mem_iff.mp hu)
  · intro u hu hkeep hne hmem
    rcases ListFile.mergeList_cases (h.1.mem_iff.mp hmem) with h2 | h2
    · have h2f : u ∈ List.filter ListFile.keepLine init := h2
      have h3 := List.of_mem_filter h2f
      rw [hkeep] at h3
      exact Bool.noConfusion h3
    · exact hne h2
  
/-- Witness for claim C6: a corrupt file with a blank line and a
non-semver line is healed: both lines are dropped, the valid lines are
kept, the new version inserted, and the output is sorted with no
error. -/
theorem claim6_witness :
    (["v1.0.0", "v1.5.0", "v2.0.0"] : List String).Perm
      (ListFile.insertIfMissing
        ((["", "bad-line", "v2.0.0", "v1.0.0"] : List String).filter ListFile.keepLine)
        "v1.5.0") ∧
    (["v1.0.0", "v1.5.0", "v2.0.0"] : List String).Nodup ∧
    (∀ u ∈ (["v1.0.0", "v1.5.0", "v2.0.0"] : List String),
      u ∈ (["", "bad-line", "v2.0.0", "v1.0.0"] : List String).filter ListFile.keepLine ∨
        u = "v1.5.0") ∧
    (∀ u ∈ (["", "bad-line", "v2.0.0", "v1.0.0"] : List String),
      ListFile.keepLine u = false → u ≠ "v1.5.0" →
        u ∉ (["v1.0.0", "v1.5.0", "v2.0.0"] : List String)) ∧
    ListFile.SortedByGo ["v1.0.0", "v1.5.0", "v2.0.0"] :=
  claim6_thm ["", "bad-line", "v2.0.0", "v1.0.0"] "v1.5.0"
    ["v1.0.0", "v1.5.0", "v2.0.0"] (by decide) (by decide)

/-- Claim C9: deduplication is by exact string equality only. The strings
v1.0.0 and v1.0.0+build compare equal under semver.Compare (build metadata
is ignored) yet differ, both remain as entries, both adjacent orders are
possible sort.Slice outputs (the sort is not stable, so their relative
order is unspecified), every output is non-decreasing under the
comparison, and the list holding both is not strictly ascending. -/
theorem claim9_thm :
    Semver.compare "v1.0.0" "v1.0.0+build" = 0 ∧
    "v1.0.0" ≠ "v1.0.0+build" ∧
    ListFile.UpdateList (some ["v1.0.0"]) "v1.0.0+build"
      ["v1.0.0", "v1.0.0+build"] ∧
    ListFile.UpdateList (some ["v1.0.0"]) "v1.0.0+build"
      ["v1.0.0+build", "v1.0.0"] ∧
    (∀ init v out, ListFile.UpdateList init v out →
      out.Chain' (fun a b => Semver.compare a b ≤ 0)) ∧
    ¬ (["v1.0.0", "v1.0.0+build"] : List String).Chain'
        (fun a b => Semver.compare a b < 0) := by
  refine ⟨by decide, by decide, by decide, by decide, ?_, ?_⟩
  · intro init v out h
    exact (ListFile.sortedByGo_iff_ascending out).mp h.2
  · rw [List.chain'_pair]
    decide

/-- Witness for claim C9: the general non-decreasing conclusion applied to
a concrete output that holds both semver-equal entries. -/
theorem claim9_witness :
    (["v1.0.0", "v1.0.0+build"] : List String).Chain'
      (fun a b => Semver.compare a b ≤ 0) :=
  claim9_thm.2.2.2.2.1 (some ["v1.0.0"]) "v1.0.0+build"
    ["v1.0.0", "v1.0.0+build"] (by decide)

/-- Claim C4 counterexample: on a fully successful run the zip file is not
produced by a plain truncate-write at its final path: the trace writes the
archive bytes into the temporary file created next to it and renames that
file onto the final path, and no whole-file write ever targets the final
zip path. The .mod and .info files are written directly. -/
theorem claim4_cex :
    (runA "src" "v1.0.0" "/out" okOracle "T0").1 =
      [FOp.readFile "/src/go.mod",
       FOp.mkdirAll "/out/example.com/m/@v",
       FOp.writeFile "/out/example.com/m/@v/v1.0.0.mod" "module example.com/m\n",
       FOp.writeFile "/out/example.com/m/@v/v1.0.0.info" (infoContent "v1.0.0" "T0"),
       FOp.createTemp "/out/example.com/m/@v" "zip-*",
       FOp.writeTemp "/out/example.com/m/@v/zip-123" "ZIPBYTES",
       FOp.closeFile "/out/example.com/m/@v/zip-123",
       FOp.rename "/out/example.com/m/@v/zip-123" "/out/example.com/m/@v/v1.0.0.zip"] ∧
    FOp.rename "/out/example.com/m/@v/zip-123" "/out/example.com/m/@v/v1.0.0.zip" ∈
      (runA "src" "v1.0.0" "/out" okOracle "T0").1 ∧
    ((runA "src" "v1.0.0" "/out" okOracle "T0").1.all (fun op =>
      match op with
      | FOp.writeFile p _ => p != "/out/example.com/m/@v/v1.0.0.zip"
      | _ => true)) = true :=
  ⟨by decide, by decide, by decide⟩

/-- Claim C4 amended: on the success path the .mod and .info files are
each written by a single plain whole-file write directly at their final
paths (so an interruption can leave a partial .mod or .info visible), but
the .zip is built in a same-directory temporary file and renamed onto its
final path, which is therefore the destination of a rename and never the
path of a direct write outside the list-update operations. -/
theorem claim4_thm (s v outR t gm mp ep ev tz : String) (o : Oracle)
    (hs : ¬(s = "" ∨ v = "" ∨ outR = "")) (hval : Semver.isValid v = true)
    (h1 : o.goMod = Except.ok gm) (h2 : o.modPathOf gm = Except.ok mp)
    (h3 : mp ≠ "") (h4 : o.escPathOf mp = Except.ok ep)
    (h5 : o.escVerOf v = Except.ok ev)
    (h6 : o.mkdirOk = true) (h7 : o.writeModOk = true)
    (h8 : o.writeInfoOk = true) (h9 : o.tmpZipName = Except.ok tz)
    (h10 : o.zipOk = true) (h11 : o.closeOk = true)
    (h12 : o.renameZipOk = true) :
    (runA s v outR o t).1 =
      [FOp.readFile (pjoin o.absSrc "go.mod"),
       FOp.mkdirAll (pjoin (pjoin outR ep) "@v"),
       FOp.writeFile (pjoin (pjoin (pjoin outR ep) "@v") (ev ++ ".mod")) gm,
       FOp.writeFile (pjoin (pjoin (pjoin outR ep) "@v") (ev ++ ".info"))
         (infoContent v t),
       FOp.createTemp (pjoin (pjoin outR ep) "@v") "zip-*",
       FOp.writeTemp tz (o.zipBytesOf mp v o.absSrc),
       FOp.closeFile tz,
       FOp.rename tz (pjoin (pjoin (pjoin outR ep) "@v") (ev ++ ".zip"))] ++
      o.listTrace ∧
    FOp.writeFile (pjoin (pjoin (pjoin outR ep) "@v") (ev ++ ".mod")) gm ∈
      (runA s v outR o t).1 ∧
    FOp.writeFile (pjoin (pjoin (pjoin outR ep) "@v") (ev ++ ".info"))
      (infoContent v t) ∈ (runA s v outR o t).1 ∧
    FOp.rename tz (pjoin (pjoin (pjoin outR ep) "@v") (ev ++ ".zip")) ∈
      (runA s v outR o t).1 ∧
    (∀ d, FOp.writeFile (pjoin (pjoin (pjoin outR ep) "@v") (ev ++ ".zip")) d ∈
        (runA s v outR o t).1 →
      FOp.writeFile (pjoin (pjoin (pjoin outR ep) "@v") (ev ++ ".zip")) d ∈
        o.listTrace) := by
  have htr := runA_success_trace s v outR t gm mp ep ev tz o hs hval h1 h2 h3 h4
    h5 h6 h7 h8 h9 h10 h11 h12
  have hmod : pjoin (pjoin (pjoin outR ep) "@v") (ev ++ ".zip") ≠
      pjoin (pjoin (pjoin outR ep) "@v") (ev ++ ".mod") :=
    pjoin_ne_of_ne (append_ne_of_suffix_ne (by decide))
  have hinfo : pjoin (pjoin (pjoin outR ep) "@v") (ev ++ ".zip") ≠
      pjoin (pjoin (pjoin outR ep) "@v") (ev ++ ".info") :=
    pjoin_ne_of_ne (append_ne_of_suffix_ne (by decide))
  refine ⟨htr, ?_, ?_, ?_, ?_⟩
  · rw [htr]; simp
  · rw [htr]; simp
  · rw [htr]; simp
  · intro d hd
    rw [htr] at hd
    simp only [List.cons_append, List.nil_append, List.mem_cons] at hd
    rcases hd with h | h | h | h | h | h | h | h | h
    · exact absurd h (by simp)
    · exact absurd h (by simp)
    · rw [FOp.writeFile.injEq] at h
      exact absurd h.1 hmod
    · rw [FOp.writeFile.injEq] at h
      exact absurd h.1 hinfo
    · exact absurd h (by simp)
    · exact absurd h (by simp)
    · exact absurd h (by simp)
    · exact absurd h (by simp)
    · exact h

/-- Witness for claim C4: on a concrete successful run the zip appears as
the destination of the rename of the temporary file. -/
theorem claim4_witness :
    FOp.rename "/out/example.com/m/@v/zip-123"
      (pjoin (pjoin (pjoin "/out" "example.com/m") "@v") ("v1.0.0" ++ ".zip")) ∈
      (runA "src" "v1.0.0" "/out" okOracle "T0").1 :=
  (claim4_thm "src" "v1.0.0" "/out" "T0" "module example.com/m\n" "example.com/m"
    "example.com/m" "v1.0.0" "/out/example.com/m/@v/zip-123" okOracle
    (by decide) (by decide) rfl rfl (by decide) rfl rfl rfl rfl rfl rfl rfl
    rfl rfl).2.2.2.1

/-- Claim C7 counterexample: with a pre-existing list file that already
holds the published version twice, both the first and the second run leave
the duplicated state in place, so after running the tool twice the version
appears twice in the list, not exactly once as the claim states. -/
theorem claim7_cex :
    ListFile.UpdateList (some ["v1.1.0", "v1.1.0"]) "v1.1.0"
      ["v1.1.0", "v1.1.0"] ∧
    ListFile.UpdateList (some ["v1.1.0", "v1.1.0"]) "v1.1.0"
      ["v1.1.0", "v1.1.0"] ∧
    (["v1.1.0", "v1.1.0"] : List String).count "v1.1.0" = 2 :=
  ⟨by decide, by decide, by decide⟩

/-- Claim C7 amended: two runs with identical inputs and the same external
world, differing only in their timestamps, produce identical operation
traces except that the single .info write carries each timestamp in turn,
so the .mod and .zip bytes are byte-identical and the .info differs only
in the timestamp; and for the list, provided the pre-existing kept lines
are duplicate free, the second update leaves the list of the first run
unchanged up to permutation and the version counts exactly once. -/
theorem claim7_thm (s v outR t1 t2 gm mp ep ev tz : String) (o : Oracle)
    (hs : ¬(s = "" ∨ v = "" ∨ outR = "")) (hval : Semver.isValid v = true)
    (h1 : o.goMod = Except.ok gm) (h2 : o.modPathOf gm = Except.ok mp)
    (h3 : mp ≠ "") (h4 : o.escPathOf mp = Except.ok ep)
    (h5 : o.escVerOf v = Except.ok ev)
    (h6 : o.mkdirOk = true) (h7 : o.writeModOk = true)
    (h8 : o.writeInfoOk = true) (h9 : o.tmpZipName = Except.ok tz)
    (h10 : o.zipOk = true) (h11 : o.closeOk = true)
    (h12 : o.renameZipOk = true) :
    (∃ pre post,
      (runA s v outR o t1).1 =
        pre ++ [FOp.writeFile (pjoin (pjoin (pjoin outR ep) "@v") (ev ++ ".info"))
          (infoContent v t1)] ++ post ∧
      (runA s v outR o t2).1 =
        pre ++ [FOp.writeFile (pjoin (pjoin (pjoin outR ep) "@v") (ev ++ ".info"))
          (infoContent v t2)] ++ post) ∧
    (∀ s0 out1 out2, (ListFile.readLines (s0.getD [])).Nodup →
      ListFile.UpdateList s0 v out1 → ListFile.UpdateList (some out1) v out2 →
      out2.count v = 1 ∧ out2.Perm out1) := by
  constructor
  · refine ⟨[FOp.readFile (pjoin o.absSrc "go.mod"),
      FOp.mkdirAll (pjoin (pjoin outR ep) "@v"),
      FOp.writeFile (pjoin (pjoin (pjoin outR ep) "@v") (ev ++ ".mod")) gm],
      [FOp.createTemp (pjoin (pjoin outR ep) "@v") "zip-*",
       FOp.writeTemp tz (o.zipBytesOf mp v o.absSrc),
       FOp.closeFile tz,
       FOp.rename tz (pjoin (pjoin (pjoin outR ep) "@v") (ev ++ ".zip"))] ++
      o.listTrace, ?_, ?_⟩
    · rw [runA_success_trace s v outR t1 gm mp ep ev tz o hs hval h1 h2 h3 h4
        h5 h6 h7 h8 h9 h10 h11 h12]
      simp
    · rw [runA_success_trace s v outR t2 gm mp ep ev tz o hs hval h1 h2 h3 h4
        h5 h6 h7 h8 h9 h10 h11 h12]
      simp
  · intro s0 out1 out2 hnd0 hu1 hu2
    have hvk : ListFile.keepLine v = true := ListFile.keepLine_of_valid hval
    have hkeep1 : ∀ u ∈ out1, ListFile.keepLine u = true := fun u hu =>
      ListFile.mergeList_all_keep hvk u (hu1.1.mem_iff.mp hu)
    have hnd1 : out1.Nodup := (hu1.1.nodup_iff).mpr (ListFile.mergeList_nodup hnd0)
    have hv1 : v ∈ out1 := hu1.1.mem_iff.mpr (ListFile.mem_mergeList_self s0 v)
    have hread : ListFile.readLines out1 = out1 := ListFile.readLines_eq_self hkeep1
    have hmerge2 : ListFile.mergeList (some out1) v = out1 := by
      unfold ListFile.mergeList ListFile.insertIfMissing
      simp only [Option.getD]
      rw [hread]
      simp [hv1]
    have hperm2 : out2.Perm out1 := by
      have hp := hu2.1
      rw [hmerge2] at hp
      exact hp
    refine ⟨?_, hperm2⟩
    rw [hperm2.count_eq]
    exact List.count_eq_one_of_mem hnd1 hv1

/-- Witness for claim C7: republishing v1.1.0 into a list that already
holds exactly it leaves the singleton list with the version exactly
once. -/
theorem claim7_witness :
    (["v1.1.0"] : List String).count "v1.1.0" = 1 ∧
    (["v1.1.0"] : List String).Perm ["v1.1.0"] :=
  (claim7_thm "src" "v1.1.0" "/out" "T4" "T5" "module example.com/m\n"
    "example.com/m" "example.com/m" "v1.1.0" "/out/example.com/m/@v/zip-123"
    okOracle (by decide) (by decide) rfl rfl (by decide) rfl rfl rfl rfl rfl
    rfl rfl rfl rfl).2
    none ["v1.1.0"] ["v1.1.0"] (by decide) (by decide) (by decide)

/-- Claim C8: for every identifier that escapeString accepts and that
contains an uppercase letter, the escaped segment contains no raw
uppercase letter, the all-lowercase form of the identifier escapes to
itself, and the two escaped forms differ, so escaping distinguishes the
identifier from its lower-cased form. -/
theorem claim8_thm (s e : List Char)
    (hesc : ModEscape.escapeString s = some e)
    (hup : s.any ModEscape.isUpper = true) :
    e.any ModEscape.isUpper = false ∧
    ModEscape.escapeString (ModEscape.lowerAscii s) =
      some (ModEscape.lowerAscii s) ∧
    e ≠ ModEscape.lowerAscii s := by
  unfold ModEscape.escapeString at hesc
  by_cases hbadc : (s.any fun c => c == '!' || decide (128 ≤ c.toNat)) = true
  · rw [if_pos hbadc] at hesc
    exact absurd hesc (by simp)
  · rw [if_neg hbadc, if_pos hup] at hesc
    have hbad : ¬(s.any fun c => c == '!' || decide (128 ≤ c.toNat)) = true := hbadc
    have he : s.flatMap (fun c =>
        if ModEscape.isUpper c then ['!', Char.ofNat (c.toNat + 32)] else [c]) = e := by
      injection hesc
    subst he
    have hchars2 : ∀ c ∈ s, c ≠ '!' ∧ c.toNat < 128 := by
      intro c hc
      have h1 : ¬(c == '!' || decide (128 ≤ c.toNat)) = true := by
        intro hcon
        exact hbad (List.any_eq_true.mpr ⟨c, hc, hcon⟩)
      simp only [Bool.or_eq_true, beq_iff_eq, decide_eq_true_eq, not_or] at h1
      exact ⟨h1.1, by omega⟩
    have hlow : ∀ c : Char, ModEscape.isUpper c = true →
        (Char.ofNat (c.toNat + 32)).toNat = c.toNat + 32 := by
      intro c hc
      simp only [ModEscape.isUpper, Bool.and_eq_true, decide_eq_true_eq] at hc
      exact ModEscape.toNat_ofNat_valid (by omega)
    have hlow_elems : ∀ x ∈ ModEscape.lowerAscii s,
        x ≠ '!' ∧ x.toNat < 128 ∧ ModEscape.isUpper x = false := by
      intro x hx
      unfold ModEscape.lowerAscii at hx
      rw [List.mem_map] at hx
      obtain ⟨c, hc, hxc⟩ := hx
      by_cases hcu : ModEscape.isUpper c = true
      · rw [if_pos hcu] at hxc
        subst hxc
        have h3 := hlow c hcu
        simp only [ModEscape.isUpper, Bool.and_eq_true, decide_eq_true_eq] at hcu
        refine ⟨?_, ?_, ?_⟩
        · intro hcon
          have h4 := congrArg Char.toNat hcon
          rw [h3] at h4
          have h5 : ('!' : Char).toNat = 33 := by decide
          omega
        · rw [h3]; omega
        · simp only [ModEscape.isUpper, h3]
          have h6 : ¬ (c.toNat + 32 ≤ 90) := by omega
          simp [h6]
      · rw [if_neg hcu] at hxc
        subst hxc
        obtain ⟨h1, h2⟩ := hchars2 c hc
        refine ⟨h1, h2, ?_⟩
        simpa using hcu
    refine ⟨?_, ?_, ?_⟩
    · rw [List.any_eq_false]
      intro x hx
      rw [List.mem_flatMap] at hx
      obtain ⟨c, hc, hxc⟩ := hx
      by_cases hcu : ModEscape.isUpper c = true
      · rw [if_pos hcu] at hxc
        rcases List.mem_cons.mp hxc with h1 | h1
        · subst h1; decide
        · have h2 : x = Char.ofNat (c.toNat + 32) := by simpa using h1
          subst h2
          have h3 := hlow c hcu
          simp only [ModEscape.isUpper, Bool.and_eq_true, decide_eq_true_eq] at hcu
          simp only [ModEscape.isUpper, h3, Bool.and_eq_true, decide_eq_true_eq,
            not_and]
          omega
      · rw [if_neg hcu] at hxc
        have h2 : x = c := by simpa using hxc
        subst h2
        simpa using hcu
    · have hb1 : (ModEscape.lowerAscii s).any
          (fun c => c == '!' || 128 ≤ c.toNat) = false := by
        rw [List.any_eq_false]
        intro x hx
        obtain ⟨h1, h2, h3⟩ := hlow_elems x hx
        simp only [Bool.or_eq_true, beq_iff_eq, decide_eq_true_eq, not_or]
        exact ⟨h1, by omega⟩
      have hb2 : (ModEscape.lowerAscii s).any ModEscape.isUpper = false := by
        rw [List.any_eq_false]
        intro x hx
        obtain ⟨h1, h2, h3⟩ := hlow_elems x hx
        simp [h3]
      unfold ModEscape.escapeString
      simp [hb1, hb2]
    · obtain ⟨c0, hc0, hc0u⟩ := List.any_eq_true.mp hup
      intro hcon
      have hbang : '!' ∈ s.flatMap (fun c =>
          if ModEscape.isUpper c then ['!', Char.ofNat (c.toNat + 32)] else [c]) :=
        List.mem_flatMap.mpr ⟨c0, hc0, by rw [if_pos hc0u]; simp⟩
      rw [hcon] at hbang
      obtain ⟨h1, h2, h3⟩ := hlow_elems '!' hbang
      exact h1 rfl

/-- Witness for claim C8: the identifier Ab escapes to bang-a b, its
lower-cased form ab escapes to itself, and the two escaped forms
differ. -/
theorem claim8_witness :
    (['!', 'a', 'b'] : List Char).any ModEscape.isUpper = false ∧
    ModEscape.escapeString (ModEscape.lowerAscii ['A', 'b']) =
      some (ModEscape.lowerAscii ['A', 'b']) ∧
    (['!', 'a', 'b'] : List Char) ≠ ModEscape.lowerAscii ['A', 'b'] :=
  claim8_thm ['A', 'b'] ['!', 'a', 'b'] (by decide) (by decide)
